import Mathlib

/-!
A shallow embedding of `src/monitor_news.py` (competitor news feed monitor).

The program fetches candidate items from configured sources (RSS feeds or
HTML pages), filters them by keyword lists and a recency window against a
persistent dedup ledger, and posts the result to a Slack webhook.

Modelling conventions:
* Network and HTML/feed parsing results are inputs: a `Source` carries the
  per-URL lists of candidate items that `try_feed`/`try_html` returned, and
  `try_html`'s post-parse logic operates on a `Page` record holding what
  BeautifulSoup extracted (meta tags, anchors with their text).
* Timestamps (Python floats) are modelled as `Int`; only their order and
  Python truthiness (zero is falsy) matter to the code under study.
* `time.time()` during one run is modelled as a single value `now`.
* `hash_id` is `sha1(url).hexdigest()` in the source; the pipeline is
  parameterised by the hash function, since the code relies only on it
  being a deterministic function of the URL.
* Python dicts used as the seen-ledger are association lists; the code
  only ever inserts keys that are absent, so cons-insertion has the same
  lookup semantics.
* Exceptions (`KeyError` from `cfg["competitors"]`, the Slack error) are
  an `Except`/trace model; an uncaught exception aborts the remaining
  statements of `main`.
-/

namespace MonitorNews

/-- Head test: `leadsWith p l` is true when `p` occurs at the head of `l`
(list-of-characters form of Python `str.startswith`). -/
def leadsWith : List Char → List Char → Bool
  | [], _ => true
  | _ :: _, [] => false
  | a :: as, b :: bs => a = b && leadsWith as bs

/-- Substring test: `occursIn n l` is true when `n` occurs contiguously
somewhere in `l` (Python's `n in l` on the character lists). -/
def occursIn (n : List Char) : List Char → Bool
  | [] => leadsWith n []
  | c :: cs => leadsWith n (c :: cs) || occursIn n cs

/-- Python `needle in haystack` on strings (case-sensitive substring). -/
def strContains (haystack needle : String) : Bool :=
  occursIn needle.toList haystack.toList

/-- Python `s.startswith(p)`. -/
def strStarts (s p : String) : Bool :=
  leadsWith p.toList s.toList

/-- Python `s.lower()` (character-list implementation, so that concrete
evaluation reduces in the kernel). -/
def lowerStr (s : String) : String :=
  ⟨s.toList.map Char.toLower⟩

/-- Python `s[:n]`. -/
def takeStr (s : String) (n : Nat) : String :=
  ⟨s.toList.take n⟩

/-- Python `s.strip()`: whitespace removed from both ends. -/
def trimStr (s : String) : String :=
  ⟨((s.toList.dropWhile Char.isWhitespace).reverse.dropWhile
      Char.isWhitespace).reverse⟩

/-- One pass of Python `s.replace(pat, repl)` (all non-overlapping
occurrences, scanning left to right).  The fuel argument only bounds the
recursion; it is instantiated with the length of the string plus one, and
every step consumes at least one character, so it never runs out. -/
def replaceAux (pat repl : List Char) : Nat → List Char → List Char
  | 0, cs => cs
  | _, [] => []
  | fuel + 1, c :: cs =>
    if pat ≠ [] && leadsWith pat (c :: cs) then
      repl ++ replaceAux pat repl fuel (List.drop (pat.length - 1) cs)
    else c :: replaceAux pat repl fuel cs

/-- Python `s.replace(pat, repl)`. -/
def replaceStr (s pat repl : String) : String :=
  ⟨replaceAux pat.toList repl.toList (s.toList.length + 1) s.toList⟩

/-- Split a character list at the first occurrence of `sep`:
`(before, after)`, with `after = []` when `sep` is absent.  The boolean
reports whether `sep` was found. -/
def splitFirst (sep : Char) : List Char → Bool × List Char × List Char
  | [] => (false, [], [])
  | c :: cs =>
    if c = sep then (true, [], cs)
    else
      let r := splitFirst sep cs
      (r.1, c :: r.2.1, r.2.2)

/-- Characters allowed after the first letter of a URL scheme. -/
def isSchemeChar (c : Char) : Bool :=
  c.isAlphanum || c = '+' || c = '-' || c = '.'

/-- Result of `urllib.parse.urlparse` restricted to the components the
program reads (`scheme`, `netloc`, `path`). -/
structure UrlParts where
  scheme : String
  netloc : String
  path : String
  query : String
  fragment : String
deriving DecidableEq, Repr

/-- Models `urllib.parse.urlparse`: strip the fragment at the first `#`,
recognise a scheme (a leading letter followed by letters, digits, `+`,
`-`, `.` up to a `:`; lowercased), then a `//netloc` delimited by
`/`, `?` (the fragment is already gone), then the query after the first
`?`; the remainder is the path. -/
def urlparse (url : String) : UrlParts :=
  let cs := url.toList
  let f := splitFirst '#' cs
  let frag := if f.1 then f.2.2 else []
  let rest0 := f.2.1
  let sch := splitFirst ':' rest0
  let hasScheme := sch.1 && !sch.2.1.isEmpty &&
    (sch.2.1.headD 'a').isAlpha && sch.2.1.all isSchemeChar
  let scheme := if hasScheme then sch.2.1.map Char.toLower else []
  let rest1 := if hasScheme then sch.2.2 else rest0
  let hasNet := leadsWith ['/', '/'] rest1
  let netBody := if hasNet then rest1.drop 2 else []
  let netloc := netBody.takeWhile (fun c => c ≠ '/' && c ≠ '?')
  let rest2 := if hasNet then netBody.dropWhile (fun c => c ≠ '/' && c ≠ '?') else rest1
  let q := splitFirst '?' rest2
  let query := if q.1 then q.2.2 else []
  let path := q.2.1
  { scheme := String.mk scheme, netloc := String.mk netloc,
    path := String.mk path, query := String.mk query,
    fragment := String.mk frag }

/-- Python truthiness of an optional string: `None` and `""` are falsy. -/
def truthyStr : Option String → Bool
  | some s => s ≠ ""
  | none => false

/-- A normalised candidate item as built by `try_feed`/`try_html`
(a dict with keys url, title, summary, published_ts). -/
structure CandidateItem where
  url : String
  title : String
  summary : String
  published_ts : Option Int
deriving DecidableEq, Repr

/-- An accepted article as appended to `results` in `filter_and_collect`. -/
structure RelevantArticle where
  title : String
  url : String
  summary : String
  published_ts : Int
  source : String
deriving DecidableEq, Repr

/-- An anchor element of a fetched page: its `href` attribute and
`a.get_text(" ", strip=True)`. -/
structure Anchor where
  href : String
  text : String
deriving DecidableEq, Repr

/-- What BeautifulSoup extracted from a fetched HTML page, as consumed by
the rest of `try_html`: the requested URL, the `content` attribute of the
`og:title` / `og:description` meta tags (when the tag exists and has the
attribute), `soup.title.string` (when present), the `name=description`
meta content, and all anchors having an `href`. -/
structure Page where
  url : String
  og_title : Option String
  title_string : Option String
  og_description : Option String
  meta_description : Option String
  anchors : List Anchor
deriving DecidableEq, Repr

/-- Derived page-level title of `try_html` (`og:title` content when
truthy, else `soup.title.string.strip()` when truthy, else the URL). -/
def page_title (p : Page) : String :=
  if truthyStr p.og_title then (p.og_title.getD "")
  else
    match p.title_string with
    | some s => if s ≠ "" then trimStr s else p.url
    | none => p.url

/-- Derived page-level description of `try_html` (`og:description`
content when truthy, else the stripped `name=description` meta content
when truthy, else the empty string). -/
def page_desc (p : Page) : String :=
  if truthyStr p.og_description then (p.og_description.getD "")
  else
    match p.meta_description with
    | some s => if s ≠ "" then trimStr s else ""
    | none => ""

/-- The fixed article-like segments tested by `try_html`. -/
def article_segments : List String :=
  ["/news", "/article", "/stories", "/202", "/blog"]

/-- Link resolution of `try_html`: an `href` starting with `/` is prefixed
with the page's own `scheme://netloc`; any other `href` is left as-is. -/
def resolve_href (pageUrl href : String) : String :=
  if strStarts href "/" then
    (urlparse pageUrl).scheme ++ "://" ++ (urlparse pageUrl).netloc ++ href
  else href

/-- One iteration of `try_html`'s anchor loop: skip anchors with empty
text, resolve the href, skip hrefs whose parsed host differs from the
page's host, and keep the link only when one of `article_segments` occurs
as a substring of the (whole) resolved href. -/
def keep_anchor (pageUrl : String) (a : Anchor) : Option CandidateItem :=
  if a.text = "" then none
  else if (urlparse (resolve_href pageUrl a.href)).netloc ≠
      (urlparse pageUrl).netloc then none
  else if article_segments.any
      (fun seg => strContains (resolve_href pageUrl a.href) seg) then
    some ⟨resolve_href pageUrl a.href, takeStr a.text 200, "", none⟩
  else none

/-- The list of article-like links collected by `try_html`'s anchor loop,
in page order. -/
def collect_links (p : Page) : List CandidateItem :=
  p.anchors.filterMap (keep_anchor p.url)

/-- Body of `try_html` after a successful fetch and parse: collected links capped
at 50 (`items[:50]`); when none were collected, a single fallback item for
the page itself, with the derived title truncated to 200 characters and
the derived description truncated to 500. -/
def try_html (p : Page) : List CandidateItem :=
  let items := (collect_links p).take 50
  if items = [] then
    [{ url := p.url, title := takeStr (page_title p) 200,
       summary := takeStr (page_desc p) 500, published_ts := none }]
  else items

/-- A configured source together with the per-URL candidate lists that
`try_feed`/`try_html` produced for its URLs (the network is data here). -/
structure Source where
  name : Option String
  urlItems : List (List CandidateItem)
deriving DecidableEq, Repr

/-- The URL-dedup loop of `fetch_source_items`: `seen_urls` is the set of
URLs already kept (a list here; only membership is used), and an item is
kept exactly when its URL is not yet in it (first occurrence wins). -/
def dedupByUrl (s : List String) : List CandidateItem → List CandidateItem
  | [] => []
  | it :: rest =>
    if it.url ∈ s then dedupByUrl s rest
    else it :: dedupByUrl (it.url :: s) rest

/-- Model of `fetch_source_items`: concatenate the per-URL extraction results in
order, then dedup by URL with the first occurrence winning. -/
def fetch_source_items (src : Source) : List CandidateItem :=
  dedupByUrl [] src.urlItems.flatten

/-- The configuration mapping as read by the filter: each keyword list is
`none` when the key is absent from the YAML mapping. -/
structure Config where
  competitors : Option (List String)
  industries : Option (List String)
  legal_keywords : Option (List String)
deriving DecidableEq, Repr

/-- Keyword test `contains_any(text, keywords)`: lowercase the text once and test
whether any lowercased keyword is a substring of it. -/
def contains_any (text : String) (keywords : List String) : Bool :=
  keywords.any (fun k => strContains (lowerStr text) (lowerStr k))

/-- Legal-keyword test `legal_filter(title, summary, cfg)`: `contains_any` over
`cfg.get("legal_keywords", [])` on `f"{title} {summary}"`. -/
def legal_filter (title summary : String) (cfg : Config) : Bool :=
  contains_any (title ++ " " ++ summary) (cfg.legal_keywords.getD [])

/-- Display host `domain_from_url`: the parsed netloc with every occurrence of
`"www."` removed (Python `str.replace` replaces all occurrences). -/
def domain_from_url (u : String) : String :=
  replaceStr (urlparse u).netloc "www." ""

/-- The seen-ledger: a JSON object mapping `hash_id(url)` to a timestamp.
Modelled as an association list; the filter only inserts absent keys, so
cons-insertion agrees with dict update.  -/
abbrev Ledger := List (String × Int)

/-- Lookup in the ledger (first binding wins, as for a Python dict under
insert-only-when-absent updates). -/
def ledgerLookup (k : String) : Ledger → Option Int
  | [] => none
  | (k', v) :: rest => if k' = k then some v else ledgerLookup k rest

/-- Membership test `uid in seen`. -/
def ledgerHas (l : Ledger) (k : String) : Bool :=
  (ledgerLookup k l).isSome

/-- Effective timestamp of `filter_and_collect` line 180, the expression
`it.get("published_ts") or time.time()`.
Python `or` takes the right operand when the left is falsy, so both a
missing published time and a zero one resolve to the current time. -/
def effective_ts (it : CandidateItem) (now : Int) : Int :=
  match it.published_ts with
  | some t => if t = 0 then now else t
  | none => now

/-- The search text of `filter_and_collect` line 184:
an f-string joining the title and the summary with a single space. -/
def search_text (it : CandidateItem) : String :=
  it.title ++ " " ++ it.summary

/-- The display source of an accepted article:
`src.get("name") or domain_from_url(it["url"])` (an empty name is falsy). -/
def sourceName (nm : Option String) (url : String) : String :=
  if truthyStr nm then nm.getD "" else domain_from_url url

/-- The record appended to `results` on acceptance (an empty title is
falsy, hence replaced by `"(untitled)"`). -/
def mkArticle (it : CandidateItem) (nm : Option String) (published : Int) :
    RelevantArticle :=
  { title := if it.title = "" then "(untitled)" else it.title,
    url := it.url, summary := it.summary,
    published_ts := published, source := sourceName nm it.url }

/-- The `KeyError`s that `filter_and_collect` can raise: `cfg["competitors"]`
and `cfg["industries"]` are looked up without a default. -/
inductive KeyErr where
  | competitors
  | industries
deriving DecidableEq, Repr

/-- One iteration of the item loop of `filter_and_collect` on the state
`(seen, results)`: skip when the uid is already in the ledger; skip when
the effective timestamp is before `since_ts`; raise `KeyError` when
`cfg["competitors"]` / `cfg["industries"]` is absent at its lookup; skip
when a keyword category does not match; otherwise append the article and
record the uid with the current time.  Each `continue` of the source is
an `else` returning the state unchanged. -/
def procItem (h : String → String) (cfg : Config) (since_ts now : Int)
    (nm : Option String) (st : Ledger × List RelevantArticle)
    (it : CandidateItem) : Except KeyErr (Ledger × List RelevantArticle) :=
  if ledgerHas st.1 (h it.url) then .ok st
  else if effective_ts it now < since_ts then .ok st
  else
    match cfg.competitors with
    | none => .error .competitors
    | some comp =>
      if contains_any (search_text it) comp then
        match cfg.industries with
        | none => .error .industries
        | some ind =>
          if contains_any (search_text it) ind then
            if legal_filter it.title it.summary cfg then
              .ok ((h it.url, now) :: st.1,
                st.2 ++ [mkArticle it nm (effective_ts it now)])
            else .ok st
          else .ok st
      else .ok st

/-- Left fold threading an `Except`: an uncaught exception at any element
aborts the rest of the loop, as in Python. -/
def foldE {σ α ε : Type} (f : σ → α → Except ε σ) : σ → List α → Except ε σ
  | s, [] => .ok s
  | s, a :: as =>
    match f s a with
    | .error e => .error e
    | .ok s' => foldE f s' as

/-- The inner loop of `filter_and_collect` over one source's fetched
items. -/
def procSource (h : String → String) (cfg : Config) (since_ts now : Int)
    (st : Ledger × List RelevantArticle) (src : Source) :
    Except KeyErr (Ledger × List RelevantArticle) :=
  foldE (procItem h cfg since_ts now src.name) st (fetch_source_items src)

/-- Top-level filter `filter_and_collect(all_sources, cfg, since_ts, seen)`: iterate the
sources in order, threading the ledger and the accumulated results;
return the accepted articles and the final ledger (the Python version
mutates `seen` in place and returns `results`). -/
def filter_and_collect (h : String → String) (sources : List Source)
    (cfg : Config) (since_ts now : Int) (seen : Ledger) :
    Except KeyErr (List RelevantArticle × Ledger) :=
  match foldE (procSource h cfg since_ts now) (seen, []) sources with
  | .error e => .error e
  | .ok st => .ok (st.2, st.1)

/-- The errors `main` can die with: a `KeyError` escaping
`filter_and_collect`, or the `RuntimeError` raised by `post_to_slack`
when the webhook answers with a status `≥ 300`. -/
inductive RunError where
  | filterErr (e : KeyErr)
  | deliveryErr (status : Nat)
deriving DecidableEq, Repr

instance {ε α : Type} [DecidableEq ε] [DecidableEq α] : DecidableEq (Except ε α)
  | .ok a, .ok b =>
    if h : a = b then isTrue (by rw [h])
    else isFalse (by intro hc; cases hc; exact h rfl)
  | .ok _, .error _ => isFalse (by intro hc; cases hc)
  | .error _, .ok _ => isFalse (by intro hc; cases hc)
  | .error e, .error f =>
    if h : e = f then isTrue (by rw [h])
    else isFalse (by intro hc; cases hc; exact h rfl)

/-- The observable outcome of one `main` run: whether (and with what
contents) `save_seen` executed, and how the run ended. -/
structure MainTrace where
  saved : Option Ledger
  outcome : Except RunError Unit
deriving DecidableEq, Repr

/-- Model of `main` after config/ledger loading, with the fetched data, the clock
and the webhook environment variable as inputs: run
`filter_and_collect`; if it raises, the run dies there and `save_seen`
never executes; otherwise `save_seen(seen)` runs, then either dry-run
printing (blank webhook after strip) or `post_to_slack`, which raises
exactly when the response status is `≥ 300`. -/
def main_model (h : String → String) (sources : List Source) (cfg : Config)
    (since_ts now : Int) (loaded : Ledger) (webhook : String)
    (status : Nat) : MainTrace :=
  match filter_and_collect h sources cfg since_ts now loaded with
  | .error e => { saved := none, outcome := .error (.filterErr e) }
  | .ok pr =>
    if trimStr webhook = "" then
      { saved := some pr.2, outcome := .ok () }
    else if 300 ≤ status then
      { saved := some pr.2, outcome := .error (.deliveryErr status) }
    else
      { saved := some pr.2, outcome := .ok () }

/-- The identity used to instantiate the hash parameter in concrete runs
(the source uses a SHA-1 hex digest; only determinism matters). -/
def strId (s : String) : String := s

/-- The part of one filter iteration that does not depend on the ledger:
what the keyword/recency checks decide for a fresh (unseen) item.
`ok true` = accept, `ok false` = reject, `error` = `KeyError`. -/
def freshDecision (cfg : Config) (since_ts now : Int) (it : CandidateItem) :
    Except KeyErr Bool :=
  if effective_ts it now < since_ts then .ok false
  else
    match cfg.competitors with
    | none => .error .competitors
    | some comp =>
      if contains_any (search_text it) comp then
        match cfg.industries with
        | none => .error .industries
        | some ind =>
          if contains_any (search_text it) ind then
            if legal_filter it.title it.summary cfg then .ok true
            else .ok false
          else .ok false
      else .ok false

/-- Factoring of `procItem`: the ledger check first, then the ledger-free
decision, then the state update. -/
theorem procItem_eq_decision (h : String → String) (cfg : Config)
    (since_ts now : Int) (nm : Option String)
    (st : Ledger × List RelevantArticle) (it : CandidateItem) :
    procItem h cfg since_ts now nm st it =
      if ledgerHas st.1 (h it.url) then .ok st
      else
        match freshDecision cfg since_ts now it with
        | .error e => .error e
        | .ok false => .ok st
        | .ok true =>
          .ok ((h it.url, now) :: st.1,
            st.2 ++ [mkArticle it nm (effective_ts it now)]) := by
  unfold procItem freshDecision
  by_cases h1 : ledgerHas st.1 (h it.url)
  · simp [h1]
  · simp only [h1, if_false, Bool.false_eq_true, if_neg]
    by_cases h2 : effective_ts it now < since_ts
    · simp [h2]
    · simp only [h2, if_false, if_neg]
      cases hc : cfg.competitors with
      | none => simp
      | some comp =>
        by_cases h3 : contains_any (search_text it) comp
        · simp only [h3, if_true, if_pos]
          cases hi : cfg.industries with
          | none => simp
          | some ind =>
            by_cases h4 : contains_any (search_text it) ind
            · by_cases h5 : legal_filter it.title it.summary cfg <;> simp [h4, h5]
            · simp [h4]
        · simp [h3]

theorem ledgerHas_cons (k k' : String) (v : Int) (l : Ledger) :
    ledgerHas ((k, v) :: l) k' = (decide (k = k') || ledgerHas l k') := by
  by_cases h : k = k' <;> simp [ledgerHas, ledgerLookup, h]

theorem ledgerHas_cons_self (k : String) (v : Int) (l : Ledger) :
    ledgerHas ((k, v) :: l) k = true := by
  simp [ledgerHas_cons]

/-- Looking up any existing binding survives a cons-insert of a key that
was absent (and in fact of any key: existing bindings shadow nothing that
was present). -/
theorem ledgerLookup_cons_of_ne (k k' : String) (v : Int) (l : Ledger)
    (hne : k ≠ k') : ledgerLookup k' ((k, v) :: l) = ledgerLookup k' l := by
  simp [ledgerLookup, hne]

/-- Ledger membership after one filter iteration only grows. -/
theorem procItem_has_mono {h : String → String} {cfg : Config}
    {since_ts now : Int} {nm : Option String}
    {st st' : Ledger × List RelevantArticle} {it : CandidateItem}
    (hok : procItem h cfg since_ts now nm st it = .ok st') :
    ∀ k, ledgerHas st.1 k = true → ledgerHas st'.1 k = true := by
  rw [procItem_eq_decision] at hok
  intro k hk
  split at hok
  · cases hok; exact hk
  · split at hok
    · cases hok
    · cases hok; exact hk
    · cases hok; simp [ledgerHas_cons, hk]

/-- Existing ledger bindings survive one filter iteration unchanged. -/
theorem procItem_lookup_mono {h : String → String} {cfg : Config}
    {since_ts now : Int} {nm : Option String}
    {st st' : Ledger × List RelevantArticle} {it : CandidateItem}
    (hok : procItem h cfg since_ts now nm st it = .ok st') :
    ∀ k v, ledgerLookup k st.1 = some v → ledgerLookup k st'.1 = some v := by
  rw [procItem_eq_decision] at hok
  intro k v hk
  split at hok
  · cases hok; exact hk
  case isFalse hseen =>
    split at hok
    · cases hok
    · cases hok; exact hk
    · cases hok
      have hne : h it.url ≠ k := by
        intro he
        apply hseen
        rw [he]
        simp [ledgerHas, hk]
      rw [ledgerLookup_cons_of_ne _ _ _ _ hne]
      exact hk

/-- One filter iteration either leaves the state unchanged or appends one
accepted article and records its uid, with all keyword and recency
conditions established. -/
theorem procItem_cases {h : String → String} {cfg : Config}
    {since_ts now : Int} {nm : Option String}
    {st st' : Ledger × List RelevantArticle} {it : CandidateItem}
    (hok : procItem h cfg since_ts now nm st it = .ok st') :
    st' = st ∨
    (∃ comp ind,
      ledgerHas st.1 (h it.url) = false ∧
      ¬ effective_ts it now < since_ts ∧
      cfg.competitors = some comp ∧
      contains_any (search_text it) comp = true ∧
      cfg.industries = some ind ∧
      contains_any (search_text it) ind = true ∧
      legal_filter it.title it.summary cfg = true ∧
      st' = ((h it.url, now) :: st.1,
        st.2 ++ [mkArticle it nm (effective_ts it now)])) := by
  rw [procItem_eq_decision] at hok
  split at hok
  · cases hok; exact Or.inl rfl
  case isFalse hseen =>
    split at hok
    · cases hok
    · cases hok; exact Or.inl rfl
    case h_3 heq =>
      cases hok
      right
      unfold freshDecision at heq
      split at heq
      · cases heq
      · split at heq
        · cases heq
        case h_2 comp hc =>
          split at heq
          case isTrue h3 =>
            split at heq
            · cases heq
            case h_2 ind hi =>
              split at heq
              case isTrue h4 =>
                split at heq
                case isTrue h5 =>
                  exact ⟨comp, ind, by simpa using hseen, by assumption, hc, h3,
                    hi, h4, h5, rfl⟩
                case isFalse h5 => cases heq
              case isFalse h4 => cases heq
          case isFalse h3 => cases heq

/-- A reflexive-transitive step property is preserved by `foldE`, for
steps drawn from the folded list. -/
theorem foldE_pres {σ α ε : Type} (f : σ → α → Except ε σ) (P : σ → σ → Prop)
    (hrefl : ∀ s, P s s) (htrans : ∀ a b c, P a b → P b c → P a c)
    (l : List α) (hstep : ∀ s a s', a ∈ l → f s a = .ok s' → P s s') :
    ∀ s s', foldE f s l = .ok s' → P s s' := by
  induction l with
  | nil =>
    intro s s' hf
    unfold foldE at hf
    cases hf
    exact hrefl s
  | cons a as ih =>
    intro s s' hf
    unfold foldE at hf
    cases hfa : f s a with
    | error e => rw [hfa] at hf; cases hf
    | ok s1 =>
      rw [hfa] at hf
      exact htrans _ _ _ (hstep s a s1 (by simp) hfa)
        (ih (fun t b t' hb => hstep t b t' (by simp [hb])) s1 s' hf)

/-- A state invariant is preserved by `foldE`, for steps drawn from the
folded list. -/
theorem foldE_inv {σ α ε : Type} (f : σ → α → Except ε σ) (Q : σ → Prop)
    (l : List α) (hstep : ∀ s a s', a ∈ l → Q s → f s a = .ok s' → Q s') :
    ∀ s s', Q s → foldE f s l = .ok s' → Q s' := by
  induction l with
  | nil =>
    intro s s' hq hf
    unfold foldE at hf
    cases hf
    exact hq
  | cons a as ih =>
    intro s s' hq hf
    unfold foldE at hf
    cases hfa : f s a with
    | error e => rw [hfa] at hf; cases hf
    | ok s1 =>
      rw [hfa] at hf
      exact ih (fun t b t' hb => hstep t b t' (by simp [hb]))
        s1 s' (hstep s a s1 (by simp) hq hfa) hf

/-- Rerunning a ledger-threading fold on any ledger that includes its own
final ledger is a no-op, provided each step grows the ledger
monotonically and reruns as a no-op on supersets of its own result. -/
theorem foldE_rerun_super {α : Type}
    (f : (Ledger × List RelevantArticle) → α →
      Except KeyErr (Ledger × List RelevantArticle))
    (hmono : ∀ s s' a, f s a = .ok s' →
      ∀ k, ledgerHas s.1 k = true → ledgerHas s'.1 k = true)
    (hre : ∀ s s' a, f s a = .ok s' →
      ∀ L R, (∀ k, ledgerHas s'.1 k = true → ledgerHas L k = true) →
        f (L, R) a = .ok (L, R)) :
    ∀ (bs : List α) s s', foldE f s bs = .ok s' →
      ∀ L R, (∀ k, ledgerHas s'.1 k = true → ledgerHas L k = true) →
        foldE f (L, R) bs = .ok (L, R) := by
  intro bs
  induction bs with
  | nil =>
    intro s s' _ L R _
    unfold foldE
    rfl
  | cons b bs ih =>
    intro s s' hf L R hsub
    unfold foldE at hf
    cases hfb : f s b with
    | error e => rw [hfb] at hf; cases hf
    | ok s1 =>
      rw [hfb] at hf
      have hs1 : ∀ k, ledgerHas s1.1 k = true → ledgerHas s'.1 k = true :=
        foldE_pres f (fun u v => ∀ k, ledgerHas u.1 k = true → ledgerHas v.1 k = true)
          (fun _ _ hk => hk) (fun _ _ _ hab hbc k hk => hbc k (hab k hk))
          bs (fun u a v _ hv => hmono u v a hv) s1 s' hf
      have hstep2 : f (L, R) b = .ok (L, R) :=
        hre s s1 b hfb L R (fun k hk => hsub k (hs1 k hk))
      unfold foldE
      rw [hstep2]
      exact ih s1 s' hf L R hsub

/-- A single filter iteration reruns as a no-op on any ledger containing
its own result ledger. -/
theorem procItem_rerun {h : String → String} {cfg : Config}
    {since_ts now : Int} {nm : Option String}
    {st st' : Ledger × List RelevantArticle} {it : CandidateItem}
    (hok : procItem h cfg since_ts now nm st it = .ok st')
    (L : Ledger) (R : List RelevantArticle)
    (hsub : ∀ k, ledgerHas st'.1 k = true → ledgerHas L k = true) :
    procItem h cfg since_ts now nm (L, R) it = .ok (L, R) := by
  rw [procItem_eq_decision]
  by_cases hL : ledgerHas L (h it.url) = true
  · simp [hL]
  · have hL' : ledgerHas L (h it.url) = false := by
      cases hb : ledgerHas L (h it.url)
      · rfl
      · exact absurd hb hL
    have hst : ledgerHas st.1 (h it.url) = false := by
      cases hb : ledgerHas st.1 (h it.url)
      · rfl
      · exact absurd (hsub _ (procItem_has_mono hok _ hb)) hL
    rw [procItem_eq_decision] at hok
    rw [hst] at hok
    simp only [Bool.false_eq_true, if_false] at hok
    cases hd : freshDecision cfg since_ts now it with
    | error e => rw [hd] at hok; cases hok
    | ok b =>
      rw [hd] at hok
      cases b with
      | false =>
        simp [hL']
      | true =>
        cases hok
        exact absurd (hsub _ (by simp [ledgerHas_cons])) hL

theorem procSource_has_mono {h : String → String} {cfg : Config}
    {since_ts now : Int} {st st' : Ledger × List RelevantArticle} {src : Source}
    (hok : procSource h cfg since_ts now st src = .ok st') :
    ∀ k, ledgerHas st.1 k = true → ledgerHas st'.1 k = true := by
  unfold procSource at hok
  exact foldE_pres (procItem h cfg since_ts now src.name)
    (fun u v => ∀ k, ledgerHas u.1 k = true → ledgerHas v.1 k = true)
    (fun _ _ hk => hk) (fun _ _ _ hab hbc k hk => hbc k (hab k hk))
    (fetch_source_items src)
    (fun _ _ _ _ hv => procItem_has_mono hv) st st' hok

theorem procSource_lookup_mono {h : String → String} {cfg : Config}
    {since_ts now : Int} {st st' : Ledger × List RelevantArticle} {src : Source}
    (hok : procSource h cfg since_ts now st src = .ok st') :
    ∀ k v, ledgerLookup k st.1 = some v → ledgerLookup k st'.1 = some v := by
  unfold procSource at hok
  exact foldE_pres (procItem h cfg since_ts now src.name)
    (fun u w => ∀ k v, ledgerLookup k u.1 = some v → ledgerLookup k w.1 = some v)
    (fun _ _ _ hk => hk) (fun _ _ _ hab hbc k v hk => hbc k v (hab k v hk))
    (fetch_source_items src)
    (fun _ _ _ _ hv => procItem_lookup_mono hv) st st' hok

/-- Processing one source again on any ledger containing its own final
ledger is a no-op. -/
theorem procSource_rerun {h : String → String} {cfg : Config}
    {since_ts now : Int} {st st' : Ledger × List RelevantArticle} {src : Source}
    (hok : procSource h cfg since_ts now st src = .ok st')
    (L : Ledger) (R : List RelevantArticle)
    (hsub : ∀ k, ledgerHas st'.1 k = true → ledgerHas L k = true) :
    procSource h cfg since_ts now (L, R) src = .ok (L, R) := by
  unfold procSource at hok ⊢
  exact foldE_rerun_super (procItem h cfg since_ts now src.name)
    (fun _ _ _ hv => procItem_has_mono hv)
    (fun _ _ _ hv L' R' hs => procItem_rerun hv L' R' hs)
    (fetch_source_items src) st st' hok L R hsub

/-- The whole filter pass again on its own final ledger accepts nothing
and leaves the ledger unchanged. -/
theorem filter_and_collect_rerun {h : String → String} {sources : List Source}
    {cfg : Config} {since_ts now : Int} {seen : Ledger}
    {res : List RelevantArticle} {seen' : Ledger}
    (hrun : filter_and_collect h sources cfg since_ts now seen = .ok (res, seen')) :
    filter_and_collect h sources cfg since_ts now seen' = .ok ([], seen') := by
  unfold filter_and_collect at hrun ⊢
  cases hf : foldE (procSource h cfg since_ts now) (seen, []) sources with
  | error e => rw [hf] at hrun; cases hrun
  | ok p =>
    rw [hf] at hrun
    cases hrun
    have h2 := foldE_rerun_super (procSource h cfg since_ts now)
      (fun _ _ _ hv => procSource_has_mono hv)
      (fun _ _ _ hv L R hs => procSource_rerun hv L R hs)
      sources (seen, []) p hf p.1 [] (fun _ hk => hk)
    rw [h2]

theorem filter_and_collect_lookup_mono {h : String → String}
    {sources : List Source} {cfg : Config} {since_ts now : Int} {seen : Ledger}
    {res : List RelevantArticle} {seen' : Ledger}
    (hrun : filter_and_collect h sources cfg since_ts now seen = .ok (res, seen')) :
    ∀ k v, ledgerLookup k seen = some v → ledgerLookup k seen' = some v := by
  unfold filter_and_collect at hrun
  cases hf : foldE (procSource h cfg since_ts now) (seen, []) sources with
  | error e => rw [hf] at hrun; cases hrun
  | ok p =>
    rw [hf] at hrun
    cases hrun
    exact foldE_pres (procSource h cfg since_ts now)
      (fun u w => ∀ k v, ledgerLookup k u.1 = some v → ledgerLookup k w.1 = some v)
      (fun _ _ _ hk => hk) (fun _ _ _ hab hbc k v hk => hbc k v (hab k v hk))
      sources (fun _ _ _ _ hv => procSource_lookup_mono hv) (seen, []) p hf

/-- The invariant tying accepted articles to the ledger: every accepted
article's uid is already recorded, and no two accepted articles share a
uid. -/
def uidInv (h : String → String) (s : Ledger × List RelevantArticle) : Prop :=
  (∀ a ∈ s.2, ledgerHas s.1 (h a.url) = true) ∧
  (s.2.map (fun a => h a.url)).Nodup

theorem procItem_uidInv {h : String → String} {cfg : Config}
    {since_ts now : Int} {nm : Option String}
    {st st' : Ledger × List RelevantArticle} {it : CandidateItem}
    (hq : uidInv h st) (hok : procItem h cfg since_ts now nm st it = .ok st') :
    uidInv h st' := by
  rcases procItem_cases hok with heq | ⟨comp, ind, hseen, _, _, _, _, _, _, hst'⟩
  · rw [heq]; exact hq
  · subst hst'
    constructor
    · intro a ha
      rcases List.mem_append.mp ha with ha' | ha'
      · rw [ledgerHas_cons]
        simp [hq.1 a ha']
      · rw [List.mem_singleton.mp ha']
        exact ledgerHas_cons_self _ _ _
    · rw [List.map_append]
      rw [List.nodup_append]
      refine ⟨hq.2, by simp, ?_⟩
      intro x hx hx'
      simp only [List.map_cons, List.map_nil, List.mem_singleton, mkArticle] at hx'
      rcases List.mem_map.mp hx with ⟨a, ha, hax⟩
      have : ledgerHas st.1 (h it.url) = true := by
        rw [← hx', ← hax]
        exact hq.1 a ha
      rw [this] at hseen
      cases hseen

theorem filter_and_collect_uidInv {h : String → String}
    {sources : List Source} {cfg : Config} {since_ts now : Int} {seen : Ledger}
    {res : List RelevantArticle} {seen' : Ledger}
    (hrun : filter_and_collect h sources cfg since_ts now seen = .ok (res, seen')) :
    (∀ a ∈ res, ledgerHas seen' (h a.url) = true) ∧
    (res.map (fun a => h a.url)).Nodup := by
  unfold filter_and_collect at hrun
  cases hf : foldE (procSource h cfg since_ts now) (seen, []) sources with
  | error e => rw [hf] at hrun; cases hrun
  | ok p =>
    rw [hf] at hrun
    cases hrun
    exact foldE_inv _ (uidInv h) sources
      (fun s src s' _ hq hv =>
        foldE_inv _ (uidInv h) (fetch_source_items src)
          (fun t itm t' _ hqt hvt => procItem_uidInv hqt hvt) s s' hq hv)
      _ _ ⟨by simp, by simp⟩ hf

/-- All the facts established about an item at the moment the filter
accepts it. -/
def acceptedFrom (cfg : Config) (since_ts now : Int) (nm : Option String)
    (it : CandidateItem) (a : RelevantArticle) : Prop :=
  a = mkArticle it nm (effective_ts it now) ∧
  since_ts ≤ effective_ts it now ∧
  contains_any (search_text it) (cfg.competitors.getD []) = true ∧
  contains_any (search_text it) (cfg.industries.getD []) = true ∧
  legal_filter it.title it.summary cfg = true

theorem procItem_prov {h : String → String} {cfg : Config}
    {since_ts now : Int} {nm : Option String}
    {st st' : Ledger × List RelevantArticle} {it : CandidateItem}
    (hok : procItem h cfg since_ts now nm st it = .ok st') :
    ∀ a ∈ st'.2, a ∈ st.2 ∨ acceptedFrom cfg since_ts now nm it a := by
  rcases procItem_cases hok with heq | ⟨comp, ind, _, hts, hc, hcc, hi, hic, hleg, hst'⟩
  · rw [heq]; exact fun a ha => Or.inl ha
  · subst hst'
    intro a ha
    rcases List.mem_append.mp ha with ha' | ha'
    · exact Or.inl ha'
    · right
      refine ⟨List.mem_singleton.mp ha', le_of_not_lt hts, ?_, ?_, hleg⟩
      · rw [hc]; exact hcc
      · rw [hi]; exact hic

theorem procSource_prov {h : String → String} {cfg : Config}
    {since_ts now : Int} {st st' : Ledger × List RelevantArticle} {src : Source}
    (hok : procSource h cfg since_ts now st src = .ok st') :
    ∀ a ∈ st'.2, a ∈ st.2 ∨
      ∃ it ∈ fetch_source_items src, acceptedFrom cfg since_ts now src.name it a :=
  foldE_pres _
    (fun u v => ∀ a ∈ v.2, a ∈ u.2 ∨
      ∃ it ∈ fetch_source_items src, acceptedFrom cfg since_ts now src.name it a)
    (fun _ _ ha => Or.inl ha)
    (fun _ _ _ hab hbc a ha => by
      rcases hbc a ha with hb | hb
      · exact hab a hb
      · exact Or.inr hb)
    (fetch_source_items src)
    (fun s itm s' hmem hv a ha => by
      rcases procItem_prov hv a ha with hb | hb
      · exact Or.inl hb
      · exact Or.inr ⟨itm, hmem, hb⟩)
    _ _ hok

/-- Every article returned by `filter_and_collect` originates from some
fetched item of some source, with all acceptance conditions holding. -/
theorem filter_and_collect_prov {h : String → String}
    {sources : List Source} {cfg : Config} {since_ts now : Int} {seen : Ledger}
    {res : List RelevantArticle} {seen' : Ledger}
    (hrun : filter_and_collect h sources cfg since_ts now seen = .ok (res, seen')) :
    ∀ a ∈ res, ∃ src ∈ sources, ∃ it ∈ fetch_source_items src,
      acceptedFrom cfg since_ts now src.name it a := by
  unfold filter_and_collect at hrun
  cases hf : foldE (procSource h cfg since_ts now) (seen, []) sources with
  | error e => rw [hf] at hrun; cases hrun
  | ok p =>
    rw [hf] at hrun
    cases hrun
    have := foldE_pres _
      (fun u v => ∀ a ∈ v.2, a ∈ u.2 ∨
        ∃ src ∈ sources, ∃ it ∈ fetch_source_items src,
          acceptedFrom cfg since_ts now src.name it a)
      (fun _ _ ha => Or.inl ha)
      (fun _ _ _ hab hbc a ha => by
        rcases hbc a ha with hb | hb
        · exact hab a hb
        · exact Or.inr hb)
      sources
      (fun s src s' hmem hv a ha => by
        rcases procSource_prov hv a ha with hb | hb
        · exact Or.inl hb
        · exact Or.inr ⟨src, hmem, hb⟩)
      _ _ hf
    intro a ha
    rcases this a ha with hb | hb
    · cases hb
    · exact hb

/-- First-occurrence-wins characterisation of the URL dedup loop: among
the items with a given URL, the output keeps none when that URL was
already marked seen, and exactly the first one otherwise. -/
theorem dedupByUrl_filter (u : String) :
    ∀ (s : List String) (l : List CandidateItem),
      (dedupByUrl s l).filter (fun it => decide (it.url = u)) =
        if u ∈ s then []
        else (l.filter (fun it => decide (it.url = u))).take 1 := by
  intro s l
  induction l generalizing s with
  | nil =>
    unfold dedupByUrl
    split <;> simp
  | cons it rest ih =>
    unfold dedupByUrl
    by_cases hmem : it.url ∈ s
    · rw [if_pos hmem, ih s]
      by_cases hu : u ∈ s
      · simp [hu]
      · have hne : ¬ it.url = u := fun he => hu (he ▸ hmem)
        simp [hu, List.filter_cons, hne]
    · rw [if_neg hmem]
      by_cases hit : it.url = u
      · subst hit
        rw [List.filter_cons_of_pos (by simp)]
        rw [ih (it.url :: s), if_pos (List.mem_cons_self _ _)]
        rw [if_neg hmem]
        rw [List.filter_cons_of_pos (by simp)]
        rfl
      · rw [List.filter_cons_of_neg (by simpa using hit)]
        rw [ih (it.url :: s)]
        by_cases hu : u ∈ s
        · rw [if_pos (by simp [hu]), if_pos hu]
        · have hnotc : u ∉ (it.url :: s) := by
            intro hmem2
            rcases List.mem_cons.mp hmem2 with he | he
            · exact hit he.symm
            · exact hu he
          rw [if_neg hnotc, if_neg hu]
          rw [List.filter_cons_of_neg (by simpa using hit)]

/- Concrete fixtures used by the witnesses and counterexamples below. -/

/-- A candidate item matching all three keyword categories of `cfgFull`. -/
def itKw : CandidateItem := ⟨"https://x.com/news/1", "Acme fintech act", "", some 10⟩

/-- A candidate item with the same URL as `itKw` but a title matching no
keyword. -/
def itPlain : CandidateItem := ⟨"https://x.com/news/1", "hello world", "", some 10⟩

/-- A candidate item with a present-but-zero published timestamp. -/
def itZero : CandidateItem := ⟨"https://x.com/news/2", "Acme fintech act", "", some 0⟩

/-- A configuration with all three keyword lists present. -/
def cfgFull : Config := ⟨some ["acme"], some ["fintech"], some ["act"]⟩

def srcPlain : Source := ⟨some "S1", [[itPlain]]⟩

def srcKw : Source := ⟨some "S2", [[itKw]]⟩

def srcZero : Source := ⟨some "S3", [[itZero]]⟩

/-- The article produced when `itKw` is accepted from `srcKw`. -/
def aKw : RelevantArticle := ⟨"Acme fintech act", "https://x.com/news/1", "", 10, "S2"⟩

/-- A page whose only anchor points off-host, so no link qualifies. -/
def pgNoLinks : Page :=
  ⟨"https://site.com/home", some "T", none, none, some "D",
    [⟨"https://other.com/news/1", "x"⟩]⟩

/-- A page with one same-host anchor whose path has no article-like
segment, but whose query string contains one. -/
def pgQuery : Page :=
  ⟨"https://site.com/home", none, none, none, none,
    [⟨"https://site.com/page?ref=/news", "Click"⟩]⟩

/-- A page with one path-relative (not root-relative) anchor. -/
def pgRel : Page :=
  ⟨"https://site.com/home", none, none, none, none, [⟨"style.css", "css"⟩]⟩

/-- C1: every candidate item accepted by the relevance filter has a
search text (the code's `f"{title} {summary}"`, title and summary joined
by one space) that case-insensitively contains at least one keyword from
each of the three configured lists — competitors AND industries AND
legal/regulatory terms — so every accepted article satisfies all three
categories. -/
theorem c1_accept_requires_all_keyword_lists
    (h : String → String) (sources : List Source) (cfg : Config)
    (since_ts now : Int) (seen seen' : Ledger) (res : List RelevantArticle)
    (hrun : filter_and_collect h sources cfg since_ts now seen = .ok (res, seen')) :
    ∀ a ∈ res, ∃ src ∈ sources, ∃ it ∈ fetch_source_items src,
      a.url = it.url ∧ a.summary = it.summary ∧
      contains_any (search_text it) (cfg.competitors.getD []) = true ∧
      contains_any (search_text it) (cfg.industries.getD []) = true ∧
      legal_filter it.title it.summary cfg = true := by
  intro a ha
  obtain ⟨src, hs, it, hi, hacc⟩ := filter_and_collect_prov hrun a ha
  exact ⟨src, hs, it, hi, by rw [hacc.1]; rfl, by rw [hacc.1]; rfl,
    hacc.2.2.1, hacc.2.2.2.1, hacc.2.2.2.2⟩

theorem c1_accept_requires_all_keyword_lists_w :
    ∃ src ∈ [srcKw], ∃ it ∈ fetch_source_items src,
      aKw.url = it.url ∧ aKw.summary = it.summary ∧
      contains_any (search_text it) (cfgFull.competitors.getD []) = true ∧
      contains_any (search_text it) (cfgFull.industries.getD []) = true ∧
      legal_filter it.title it.summary cfgFull = true :=
  c1_accept_requires_all_keyword_lists strId [srcKw] cfgFull 0 5 []
    [("https://x.com/news/1", 5)] [aKw] (by decide) aKw (by decide)

/-- C2 counterexample: with `legal_keywords` absent from the
configuration (and an item passing every other check), the run does NOT
abort — `legal_filter` uses `cfg.get("legal_keywords", [])`, so the
filter completes normally, silently rejecting everything. -/
theorem c2_missing_legal_silent_cex :
    filter_and_collect strId [srcKw] ⟨some ["acme"], some ["fintech"], none⟩
      0 5 [] = .ok ([], []) := by decide

/-- C2 amended: an absent `competitors` list aborts with a `KeyError`
only when some unseen, recent item reaches the keyword stage; an absent
`industries` list aborts only when such an item additionally matches a
competitor keyword; an absent `legal_keywords` list never aborts — the
filter treats it as empty and rejects every item. -/
theorem c2_missing_list_abort_behavior
    (h : String → String) (cfg : Config) (since_ts now : Int)
    (nm : Option String) (st : Ledger × List RelevantArticle)
    (it : CandidateItem) :
    (ledgerHas st.1 (h it.url) = false → ¬ effective_ts it now < since_ts →
      (cfg.competitors = none →
        procItem h cfg since_ts now nm st it = .error .competitors) ∧
      (∀ comp, cfg.competitors = some comp →
        contains_any (search_text it) comp = true → cfg.industries = none →
        procItem h cfg since_ts now nm st it = .error .industries)) ∧
    (∀ comp ind, cfg.competitors = some comp → cfg.industries = some ind →
      cfg.legal_keywords = none →
      procItem h cfg since_ts now nm st it = .ok st) := by
  constructor
  · intro hseen hts
    constructor
    · intro hc
      unfold procItem
      simp [hseen, hts, hc]
    · intro comp hc hcc hi
      unfold procItem
      simp [hseen, hts, hc, hcc, hi]
  · intro comp ind hc hi hl
    have hleg : legal_filter it.title it.summary cfg = false := by
      simp [legal_filter, hl, contains_any]
    unfold procItem
    by_cases h1 : ledgerHas st.1 (h it.url) = true
    · simp [h1]
    · by_cases h2 : effective_ts it now < since_ts
      · simp [h1, h2]
      · by_cases h3 : contains_any (search_text it) comp = true
        · by_cases h4 : contains_any (search_text it) ind = true
          · simp [h1, h2, hc, hi, h3, h4, hleg]
          · simp [h1, h2, hc, hi, h3, h4]
        · simp [h1, h2, hc, h3]

theorem c2_missing_list_abort_behavior_w :
    procItem strId ⟨some ["acme"], some ["fintech"], none⟩ 0 5 (some "S2")
      ([], []) itKw = .ok ([], []) :=
  (c2_missing_list_abort_behavior strId ⟨some ["acme"], some ["fintech"], none⟩
    0 5 (some "S2") ([], []) itKw).2 ["acme"] ["fintech"] rfl rfl rfl

/-- C3 counterexample: when the filter step itself raises (here a
`KeyError` for a missing `competitors` list), `main` dies before
`save_seen`, so the ledger is NOT persisted for that run — contradicting
"persisted ... including when the filter step fails". -/
theorem c3_filter_failure_skips_save_cex :
    main_model strId [srcKw] ⟨none, some ["fintech"], some ["act"]⟩ 0 5 []
      "hook" 200 = ⟨none, .error (.filterErr .competitors)⟩ := by decide

/-- C3 amended: `save_seen` runs exactly when `filter_and_collect`
returns normally, and it runs before delivery — so a delivery failure
(webhook status ≥ 300) is raised only after the ledger has been
persisted; but when the filter step raises, the ledger is never
persisted. -/
theorem c3_save_ordering (h : String → String) (sources : List Source)
    (cfg : Config) (since_ts now : Int) (loaded : Ledger) (webhook : String)
    (status : Nat) :
    (∀ e, filter_and_collect h sources cfg since_ts now loaded = .error e →
      main_model h sources cfg since_ts now loaded webhook status =
        ⟨none, .error (.filterErr e)⟩) ∧
    (∀ res seen',
      filter_and_collect h sources cfg since_ts now loaded = .ok (res, seen') →
      (main_model h sources cfg since_ts now loaded webhook status).saved =
        some seen') ∧
    (∀ s, (main_model h sources cfg since_ts now loaded webhook status).outcome =
        .error (.deliveryErr s) →
      (main_model h sources cfg since_ts now loaded webhook status).saved ≠
        none) := by
  unfold main_model
  cases hf : filter_and_collect h sources cfg since_ts now loaded with
  | error e =>
    refine ⟨?_, ?_, ?_⟩
    · intro e' he
      cases he
      rfl
    · intro res seen' hr
      cases hr
    · intro s hs
      simp at hs
  | ok pr =>
    refine ⟨?_, ?_, ?_⟩
    · intro e' he
      cases he
    · intro res seen' hr
      have hpr : pr = (res, seen') := Except.ok.inj hr
      subst hpr
      by_cases hw : trimStr webhook = ""
      · simp [hw]
      · by_cases hs : 300 ≤ status <;> simp [hw, hs]
    · intro s hout
      by_cases hw : trimStr webhook = ""
      · simp [hw] at hout
      · by_cases hs : 300 ≤ status
        · simp [hw, hs]
        · simp [hw, hs] at hout

theorem c3_save_ordering_w :
    (main_model strId [srcKw] cfgFull 0 5 [] "hook" 404).saved =
      some [("https://x.com/news/1", 5)] :=
  (c3_save_ordering strId [srcKw] cfgFull 0 5 [] "hook" 404).2.1
    [aKw] [("https://x.com/news/1", 5)] (by decide)

/-- C4 counterexample: an item with a PRESENT published time of 0 and
`since_ts = 50` — the claim's effective timestamp would be 0 < 50, so the
claim demands rejection, but the code's `published_ts or time.time()`
treats the falsy 0 as absent, resolves to `now = 100`, accepts the item
and emits 100 as its published time. -/
theorem c4_zero_published_accepted_cex :
    itZero.published_ts = some 0 ∧ (0 : Int) < 50 ∧
    filter_and_collect strId [srcZero] cfgFull 50 100 [] =
      .ok ([⟨"Acme fintech act", "https://x.com/news/2", "", 100, "S3"⟩],
        [("https://x.com/news/2", 100)]) := by decide

/-- C4 amended: the effective timestamp is the item's published time when
present AND nonzero, otherwise the evaluation-time clock (`effective_ts`);
an item whose effective timestamp is strictly earlier than `since_ts` is
rejected (state unchanged), and every accepted article carries an
effective timestamp ≥ `since_ts`. -/
theorem c4_recency_window
    (h : String → String) (sources : List Source) (cfg : Config)
    (since_ts now : Int) (seen seen' : Ledger) (res : List RelevantArticle)
    (hrun : filter_and_collect h sources cfg since_ts now seen = .ok (res, seen')) :
    (∀ a ∈ res, since_ts ≤ a.published_ts ∧
      ∃ src ∈ sources, ∃ it ∈ fetch_source_items src,
        a.published_ts = effective_ts it now) ∧
    (∀ (nm : Option String) (st : Ledger × List RelevantArticle)
      (it : CandidateItem), effective_ts it now < since_ts →
      procItem h cfg since_ts now nm st it = .ok st) := by
  constructor
  · intro a ha
    obtain ⟨src, hs, it, hi, hacc⟩ := filter_and_collect_prov hrun a ha
    have hpub : a.published_ts = effective_ts it now := by rw [hacc.1]; rfl
    exact ⟨by rw [hpub]; exact hacc.2.1, src, hs, it, hi, hpub⟩
  · intro nm st it hts
    rw [procItem_eq_decision]
    have hd : freshDecision cfg since_ts now it = .ok false := by
      unfold freshDecision
      simp [hts]
    by_cases h1 : ledgerHas st.1 (h it.url) = true
    · simp [h1]
    · simp [h1, hd]

theorem c4_recency_window_w :
    ((0 : Int) ≤ aKw.published_ts ∧
      ∃ src ∈ [srcKw], ∃ it ∈ fetch_source_items src,
        aKw.published_ts = effective_ts it 5) ∧
    procItem strId cfgFull 0 5 (some "S2") ([], [])
      ⟨"https://x.com/old", "Acme fintech act", "", some (-7)⟩ = .ok ([], []) :=
  ⟨(c4_recency_window strId [srcKw] cfgFull 0 5 []
      [("https://x.com/news/1", 5)] [aKw] (by decide)).1 aKw (by decide),
    (c4_recency_window strId [srcKw] cfgFull 0 5 []
      [("https://x.com/news/1", 5)] [aKw] (by decide)).2 (some "S2") ([], [])
      ⟨"https://x.com/old", "Acme fintech act", "", some (-7)⟩ (by decide)⟩

/-- C5: rerunning the whole filter pass on its own final ledger (same
sources, same clock) accepts nothing and leaves the ledger unchanged;
every article accepted by the first run has its identifier recorded in
that ledger. -/
theorem c5_rerun_idempotent
    (h : String → String) (sources : List Source) (cfg : Config)
    (since_ts now : Int) (seen seen' : Ledger) (res : List RelevantArticle)
    (hrun : filter_and_collect h sources cfg since_ts now seen = .ok (res, seen')) :
    filter_and_collect h sources cfg since_ts now seen' = .ok ([], seen') ∧
    ∀ a ∈ res, ledgerHas seen' (h a.url) = true :=
  ⟨filter_and_collect_rerun hrun, (filter_and_collect_uidInv hrun).1⟩

theorem c5_rerun_idempotent_w :
    filter_and_collect strId [srcPlain, srcKw] cfgFull 0 5
      [("https://x.com/news/1", 5)] = .ok ([], [("https://x.com/news/1", 5)]) ∧
    ledgerHas [("https://x.com/news/1", 5)] (strId aKw.url) = true :=
  ⟨(c5_rerun_idempotent strId [srcPlain, srcKw] cfgFull 0 5 []
      [("https://x.com/news/1", 5)] [aKw] (by decide)).1,
    (c5_rerun_idempotent strId [srcPlain, srcKw] cfgFull 0 5 []
      [("https://x.com/news/1", 5)] [aKw] (by decide)).2 aKw (by decide)⟩

/-- C6 counterexample: two candidate items with identical URLs but
different titles, in two sources; the FIRST fails the keyword filter (so
nothing is recorded in the ledger for it) and the SECOND is accepted —
refuting "only the first is ever accepted". -/
theorem c6_second_occurrence_accepted_cex :
    itPlain.url = itKw.url ∧ itPlain.title ≠ itKw.title ∧
    filter_and_collect strId [srcPlain, srcKw] cfgFull 0 5 [] =
      .ok ([aKw], [("https://x.com/news/1", 5)]) ∧
    aKw.title = itKw.title := by decide

/-- C6 amended: within a single source the fetcher keeps only the first
occurrence of each URL (first occurrence wins), and across the run at
most one article per uid is ever accepted: the accepted uids are distinct
and each is recorded in the final ledger, so once an occurrence of a URL
is accepted, every later candidate with the same URL is rejected by the
ledger check. -/
theorem c6_url_dedup :
    (∀ (src : Source) (u : String),
      (fetch_source_items src).filter (fun it => decide (it.url = u)) =
        ((src.urlItems.flatten).filter (fun it => decide (it.url = u))).take 1) ∧
    (∀ (h : String → String) (sources : List Source) (cfg : Config)
      (since_ts now : Int) (seen seen' : Ledger) (res : List RelevantArticle),
      filter_and_collect h sources cfg since_ts now seen = .ok (res, seen') →
      (res.map (fun a => h a.url)).Nodup ∧
      ∀ a ∈ res, ledgerHas seen' (h a.url) = true) := by
  constructor
  · intro src u
    unfold fetch_source_items
    rw [dedupByUrl_filter]
    simp
  · intro h sources cfg since_ts now seen seen' res hrun
    exact ⟨(filter_and_collect_uidInv hrun).2, (filter_and_collect_uidInv hrun).1⟩

theorem c6_url_dedup_w :
    (fetch_source_items ⟨some "S", [[itKw, itPlain]]⟩).filter
        (fun it => decide (it.url = "https://x.com/news/1")) = [itKw] ∧
    ([aKw].map (fun a => strId a.url)).Nodup := by
  constructor
  · have := c6_url_dedup.1 ⟨some "S", [[itKw, itPlain]]⟩ "https://x.com/news/1"
    rw [this]
    decide
  · exact (c6_url_dedup.2 strId [srcPlain, srcKw] cfgFull 0 5 []
      [("https://x.com/news/1", 5)] [aKw] (by decide)).1

/-- C7: when the anchor scan collects zero qualifying links, `try_html`
emits exactly one fallback candidate referencing the page itself, with
the derived page title (truncated to 200) and description (truncated to
500) — the page never yields zero candidates silently. -/
theorem c7_html_fallback_single_item (p : Page)
    (hz : collect_links p = []) :
    try_html p = [⟨p.url, takeStr (page_title p) 200,
      takeStr (page_desc p) 500, none⟩] := by
  unfold try_html
  rw [hz]
  simp

theorem c7_html_fallback_single_item_w :
    collect_links pgNoLinks = [] ∧
    try_html pgNoLinks = [⟨pgNoLinks.url, takeStr (page_title pgNoLinks) 200,
      takeStr (page_desc pgNoLinks) 500, none⟩] :=
  ⟨by decide, c7_html_fallback_single_item pgNoLinks (by decide)⟩

/-- C8 counterexample: the article-segment test runs on the WHOLE href
string, not on its path — a same-host link whose path is `/page` (no
article-like segment) is kept because `/news` occurs in its query
string. -/
theorem c8_segment_checked_on_full_url_cex :
    try_html pgQuery =
      [⟨"https://site.com/page?ref=/news", "Click", "", none⟩] ∧
    (urlparse "https://site.com/page?ref=/news").path = "/page" ∧
    article_segments.all (fun seg => !strContains "/page" seg) = true := by
  decide

/-- C8 amended: `try_html` resolves root-relative links (href starting
with `/`) against the page's own scheme and host; any other relative
link parses to an empty host and is discarded whenever the page has a
nonempty host; every kept link has the page's host and contains one of
the fixed article-like segments somewhere in its (whole) resolved URL;
the kept candidates are capped at 50. -/
theorem c8_link_extraction (p : Page) :
    (try_html p).length ≤ 50 ∧
    (∀ it ∈ collect_links p,
      (urlparse it.url).netloc = (urlparse p.url).netloc ∧
      article_segments.any (fun seg => strContains it.url seg) = true ∧
      ∃ a ∈ p.anchors, it.url = resolve_href p.url a.href) ∧
    (∀ a ∈ p.anchors, strStarts a.href "/" = false →
      (urlparse a.href).netloc = "" → (urlparse p.url).netloc ≠ "" →
      keep_anchor p.url a = none) := by
  refine ⟨?_, ?_, ?_⟩
  · simp only [try_html]
    split
    · simp
    · exact List.length_take_le _ _
  · intro it hit
    rcases List.mem_filterMap.mp hit with ⟨a, ha, hka⟩
    unfold keep_anchor at hka
    split at hka
    · cases hka
    · split at hka
      · cases hka
      case isFalse hnet =>
        split at hka
        case isTrue hseg =>
          cases hka
          exact ⟨not_ne_iff.mp hnet, hseg, a, ha, rfl⟩
        case isFalse hseg => cases hka
  · intro a ha hstart hnet hpnet
    unfold keep_anchor
    split
    · rfl
    · have hres : resolve_href p.url a.href = a.href := by
        unfold resolve_href
        rw [hstart]
        simp
      rw [if_pos]
      rw [hres, hnet]
      exact fun he => hpnet he.symm

theorem c8_link_extraction_w :
    (try_html pgQuery).length ≤ 50 ∧
    ((urlparse "https://site.com/page?ref=/news").netloc =
        (urlparse pgQuery.url).netloc ∧
      article_segments.any
        (fun seg => strContains "https://site.com/page?ref=/news" seg) = true) ∧
    keep_anchor pgRel.url ⟨"style.css", "css"⟩ = none := by
  refine ⟨(c8_link_extraction pgQuery).1, ?_, ?_⟩
  · have h2 := (c8_link_extraction pgQuery).2.1
      ⟨"https://site.com/page?ref=/news", "Click", "", none⟩ (by decide)
    exact ⟨h2.1, h2.2.1⟩
  · exact (c8_link_extraction pgRel).2.2 ⟨"style.css", "css"⟩ (by decide)
      (by decide) (by decide) (by decide)

/-- C9: the ledger only grows — every binding present in the loaded
ledger is still present, unchanged, after the filter pass (the filter
only inserts identifiers that were absent), and whatever ledger `main`
persists preserves every loaded binding. -/
theorem c9_ledger_only_grows
    (h : String → String) (sources : List Source) (cfg : Config)
    (since_ts now : Int) (seen seen' : Ledger) (res : List RelevantArticle)
    (hrun : filter_and_collect h sources cfg since_ts now seen = .ok (res, seen')) :
    (∀ k v, ledgerLookup k seen = some v → ledgerLookup k seen' = some v) ∧
    (∀ (webhook : String) (status : Nat) (L : Ledger),
      (main_model h sources cfg since_ts now seen webhook status).saved = some L →
      ∀ k v, ledgerLookup k seen = some v → ledgerLookup k L = some v) := by
  refine ⟨filter_and_collect_lookup_mono hrun, ?_⟩
  intro webhook status L hL k v hk
  have hLs : L = seen' := by
    unfold main_model at hL
    rw [hrun] at hL
    by_cases hw : trimStr webhook = ""
    · simp [hw] at hL
      exact hL.symm
    · by_cases hs : 300 ≤ status
      · simp [hw, hs] at hL
        exact hL.symm
      · simp [hw, hs] at hL
        exact hL.symm
  rw [hLs]
  exact filter_and_collect_lookup_mono hrun k v hk

theorem c9_ledger_only_grows_w :
    (main_model strId [srcKw] cfgFull 0 5 [("old", 1)] "hook" 404).saved =
      some [("https://x.com/news/1", 5), ("old", 1)] ∧
    ledgerLookup "old" [("https://x.com/news/1", 5), ("old", 1)] = some 1 :=
  ⟨by decide,
    (c9_ledger_only_grows strId [srcKw] cfgFull 0 5 [("old", 1)]
      [("https://x.com/news/1", 5), ("old", 1)] [aKw] (by decide)).2
      "hook" 404 [("https://x.com/news/1", 5), ("old", 1)] (by decide)
      "old" 1 (by decide)⟩

/-- C10: a present-but-falsy published time (numeric 0) is treated
exactly like an absent one — the effective timestamp is the evaluation
clock, the filter behaves identically on the zero-stamped and the
unstamped item, and when such an item is accepted the emitted article
carries the clock value (not 0) as its published time. -/
theorem c10_falsy_published_ts
    (h : String → String) (cfg : Config) (since_ts now : Int)
    (nm : Option String) (st : Ledger × List RelevantArticle)
    (it : CandidateItem) (hz : it.published_ts = some 0) :
    effective_ts it now = now ∧
    procItem h cfg since_ts now nm st it =
      procItem h cfg since_ts now nm st ⟨it.url, it.title, it.summary, none⟩ ∧
    (∀ l' a, procItem h cfg since_ts now nm st it = .ok (l', st.2 ++ [a]) →
      a.published_ts = now) := by
  obtain ⟨u, t, s, pub⟩ := it
  simp only at hz
  subst hz
  refine ⟨by simp [effective_ts], ?_, ?_⟩
  · simp [procItem, effective_ts, search_text, legal_filter, mkArticle, sourceName]
  · intro l' a hok
    rcases procItem_cases hok with heq | ⟨comp, ind, _, _, _, _, _, _, _, hst'⟩
    · have h2 := congrArg Prod.snd heq
      simp at h2
    · have h2 := congrArg Prod.snd hst'
      simp only [List.append_cancel_left_eq, List.cons.injEq, and_true] at h2
      rw [h2]
      simp [mkArticle, effective_ts]

theorem c10_falsy_published_ts_w :
    effective_ts itZero 100 = 100 ∧
    procItem strId cfgFull 50 100 (some "S3") ([], []) itZero =
      procItem strId cfgFull 50 100 (some "S3") ([], [])
        ⟨itZero.url, itZero.title, itZero.summary, none⟩ :=
  ⟨(c10_falsy_published_ts strId cfgFull 50 100 (some "S3") ([], []) itZero
      (by decide)).1,
    (c10_falsy_published_ts strId cfgFull 50 100 (some "S3") ([], []) itZero
      (by decide)).2.1⟩

end MonitorNews
